import Mathlib

/-!
Shallow embedding of the tcex validation/playbook core
(`tcex/testing/validate_data.py` and the playbook output layer), together
with theorems settling the specification claims about it.
-/

deriving instance DecidableEq for Except

namespace TcexValidate

/-- Embedding of the Python scalar values handled by the validator's
comparison operators: `None`, integers and strings.  Python lists and
dicts are modelled where needed by the dedicated types below. -/
inductive PyVal where
  | none : PyVal
  | int : Int → PyVal
  | str : String → PyVal
deriving DecidableEq, Repr

/-- One line of a character diff, identified by its leading marker as in
the output of `difflib.ndiff`: `' '` (no difference), `'-'` (present in
app data only), `'+'` (present in test data only). -/
inductive DiffLine where
  | space | minus | plus
deriving DecidableEq, Repr

/-- Model of the external `difflib.ndiff` character diff consumed by
`Validator.details`: a diff of the two character sequences that emits a
`space` line for each unchanged character and `minus`/`plus` lines for
deletions/insertions.  Like the real ndiff, it emits only `space` lines
for equal sequences and at least one `minus`/`plus` line for distinct
ones. -/
def ndiff : List Char → List Char → List DiffLine
  | [], ys => List.map (fun _ => DiffLine.plus) ys
  | _ :: xs, [] => DiffLine.minus :: ndiff xs []
  | x :: xs, y :: ys =>
    if x = y then DiffLine.space :: ndiff xs ys
    else DiffLine.minus :: DiffLine.plus :: ndiff xs ys

/-- One piece appended to the `details` string by the loop of
`Validator.details` (`validate_data.py` lines 38-70). -/
inductive Detail where
  | missing (i : Nat) | extra (i : Nat) | maxReached
deriving DecidableEq, Repr

/-- `true` for the two detail shapes that report a difference at an index,
`false` for the max-number-of-differences marker. -/
def Detail.isDifference : Detail → Bool
  | Detail.maxReached => false
  | _ => true

/-- Embedding of the loop of `Validator.details` (`validate_data.py` lines
38-70): `i` is the `enumerate` index over the diff lines and `c` is
`diff_count`.  A `space` line is skipped; a `minus`/`plus` line appends a
detail, then if `diff_count > max_diff` the max-reached message is
appended and the loop breaks, otherwise `diff_count` is incremented. -/
def detailsLoop (max_diff : Nat) : List DiffLine → Nat → Nat → List Detail
  | [], _, _ => []
  | DiffLine.space :: rest, i, c => detailsLoop max_diff rest (i + 1) c
  | DiffLine.minus :: rest, i, c =>
    Detail.missing i ::
      (if max_diff < c then [Detail.maxReached] else detailsLoop max_diff rest (i + 1) (c + 1))
  | DiffLine.plus :: rest, i, c =>
    Detail.extra i ::
      (if max_diff < c then [Detail.maxReached] else detailsLoop max_diff rest (i + 1) (c + 1))

/-- The exact strings appended by `Validator.details` for each detail. -/
def renderDetail : Detail → String
  | Detail.missing i => "\n    * Missing data at index " ++ toString i
  | Detail.extra i => "\n    * Extra data at index " ++ toString i
  | Detail.maxReached => "\n    * Max number of differences reached."

/-- Concatenation of the rendered details, mirroring the `details +=`
accumulation in `Validator.details`. -/
def renderDetails : List Detail → String
  | [] => ""
  | d :: rest => renderDetail d ++ renderDetails rest

/-- The list of details produced by `Validator.details` (`validate_data.py`
lines 33-75): the guard requires both values non-`None` and the operator
token `'eq'` or `'ne'`; inside the `try`, `difflib.ndiff` only diffs pairs
of strings — for the other scalar shapes it raises `TypeError`, which the
source swallows (`except TypeError: pass`), leaving the details empty. -/
def diffValues (max_diff : Nat) : PyVal → PyVal → List Detail
  | PyVal.str s, PyVal.str t => detailsLoop max_diff (ndiff s.toList t.toList) 0 0
  | _, _ => []

/-- The guard of `Validator.details` combined with the diffable-shape
dispatch above. -/
def diffDetails (max_diff : Nat) (app_data test_data : PyVal) (op : String) : List Detail :=
  if app_data ≠ PyVal.none ∧ test_data ≠ PyVal.none ∧ (op = "eq" ∨ op = "ne") then
    diffValues max_diff app_data test_data
  else []

/-- Embedding of `Validator.details` (`validate_data.py` lines 33-75),
parameterised by the configured `max_diff` (`self.max_diff`, 10 by
default). -/
def details (max_diff : Nat) (app_data test_data : PyVal) (op : String) : String :=
  renderDetails (diffDetails max_diff app_data test_data op)

/-- Embedding of `Validator.operator_eq` (`validate_data.py` lines
130-141): `operator.eq` on the two values plus the diff details. -/
def operator_eq (max_diff : Nat) (app_data tests_data : PyVal) : Bool × String :=
  (decide (app_data = tests_data), details max_diff app_data tests_data "eq")

/-- Embedding of `Validator.operator_ne` (`validate_data.py` lines
262-273): `operator.ne` on the two values plus the diff details (the
source passes the token `'eq'` to `details` here as well). -/
def operator_ne (max_diff : Nat) (app_data tests_data : PyVal) : Bool × String :=
  (decide (app_data ≠ tests_data), details max_diff app_data tests_data "eq")

/-- The comparison functions reachable from `Validator.get_operator`
(`validate_data.py` lines 77-99), one tag per distinct method in the
dispatch dict. -/
inductive OpFun where
  | dd | eq | le | lt | ge | gt | jeq | kveq | ne | rex
deriving DecidableEq, Repr

/-- Embedding of `Validator.get_operator` (`validate_data.py` lines 77-99):
the dict literal mapping operator tokens to comparison methods, with
`operators.get(op, None)` as the lookup. -/
def get_operator (op : String) : Option OpFun :=
  List.lookup op
    [("dd", OpFun.dd), ("eq", OpFun.eq), ("=", OpFun.eq),
     ("le", OpFun.le), ("<=", OpFun.le), ("lt", OpFun.lt), ("<", OpFun.lt),
     ("ge", OpFun.ge), (">=", OpFun.ge), ("gt", OpFun.gt), (">", OpFun.gt),
     ("jeq", OpFun.jeq), ("json_eq", OpFun.jeq),
     ("kveq", OpFun.kveq), ("keyvalue_eq", OpFun.kveq),
     ("ne", OpFun.ne), ("!=", OpFun.ne), ("rex", OpFun.rex)]

/-- Embedding of `Validator.operator_lt` (`validate_data.py` lines 245-260):
`results = operator.ne(app_data, tests_data)`, with the fixed detail message
when the result is falsy. -/
def operator_lt (app_data tests_data : PyVal) : Bool × String :=
  let results := decide (app_data ≠ tests_data)
  let d := if !results then "App data is not less than to test data" else ""
  (results, d)

/-- Embedding of `Validator.operator_le` (`validate_data.py` lines 228-243):
`results = operator.ne(app_data, tests_data)`. -/
def operator_le (app_data tests_data : PyVal) : Bool × String :=
  let results := decide (app_data ≠ tests_data)
  let d := if !results then "App data is not less than or equal to test data" else ""
  (results, d)

/-- Embedding of `Validator.operator_gt` (`validate_data.py` lines 160-175):
`results = operator.ne(app_data, tests_data)`. -/
def operator_gt (app_data tests_data : PyVal) : Bool × String :=
  let results := decide (app_data ≠ tests_data)
  let d := if !results then "App data is not greater than to test data" else ""
  (results, d)

/-- Embedding of `Validator.operator_ge` (`validate_data.py` lines 143-158):
`results = operator.ne(app_data, tests_data)`. -/
def operator_ge (app_data tests_data : PyVal) : Bool × String :=
  let results := decide (app_data ≠ tests_data)
  let d := if !results then "App data is not greater than or equal to test data" else ""
  (results, d)

/-- Embedding of Python `del d[e]` on a dict followed by
`except KeyError: pass`: removing an absent key is a no-op. -/
def pyDelKey (d : List (String × PyVal)) (k : String) : List (String × PyVal) :=
  d.filter (fun p => p.1 ≠ k)

/-- Python `==` on dicts (equality as finite maps), used to model when the
external `deepdiff.DeepDiff` of two JSON objects with scalar values is
empty: per the spec it is an order-insensitive structural diff. -/
def dictEq (a b : List (String × PyVal)) : Bool :=
  a.all (fun p => decide (b.lookup p.1 = some p.2)) &&
    b.all (fun p => decide (a.lookup p.1 = some p.2))

/-- Embedding of `Validator.operator_deep_diff` (`validate_data.py` lines
101-128) on JSON objects: `(True, '')` when the deep diff is empty,
`(False, <diff>)` otherwise; the diff text itself is opaque here. -/
def operator_deep_diff (app_data test_data : List (String × PyVal)) : Bool × String :=
  if dictEq app_data test_data then (true, "") else (false, "deep diff")

/-- Embedding of the exclusion loop of `Validator.operator_json_eq`
(`validate_data.py` lines 192-203).  `hasExclude` models whether the
`'exclude'` key is still present in `kwargs`: the source executes
`del kwargs['exclude']` INSIDE the loop body, outside the two
`try/except KeyError` blocks that guard the data deletions, so from the
second iteration on that statement raises an uncaught
`KeyError('exclude')`. -/
def jsonEqExcludeLoop :
    List String → List (String × PyVal) → List (String × PyVal) → Bool →
      Except String (List (String × PyVal) × List (String × PyVal))
  | [], a, t, _ => Except.ok (a, t)
  | e :: rest, a, t, hasExclude =>
    let a2 := pyDelKey a e
    let t2 := pyDelKey t e
    if hasExclude then jsonEqExcludeLoop rest a2 t2 false
    else Except.error "KeyError: 'exclude'"

/-- Embedding of `Validator.operator_json_eq` (`validate_data.py` lines
177-204) on already-parsed JSON objects (the source first runs string
inputs through the external `json.loads`; the embedding takes the parsed
objects).  `exclude` is the optional `'exclude'` entry of `kwargs`. -/
def operator_json_eq (app_data test_data : List (String × PyVal))
    (exclude : Option (List String)) : Except String (Bool × String) :=
  match jsonEqExcludeLoop (exclude.getD []) app_data test_data exclude.isSome with
  | Except.ok (a, t) => Except.ok (operator_deep_diff a t)
  | Except.error e => Except.error e

/-- Result of `ThreatConnect.tc_entities` (`validate_data.py` lines
570-587): either the length-mismatch dict `{'valid': ..., 'errors': [...]}`
or the list of per-entity boolean results. -/
inductive TcEntitiesResult where
  | lengthError (valid : Bool) (errors : List String)
  | results (rs : List Bool)
deriving DecidableEq, Repr

/-- Embedding of `ThreatConnect.tc_entities` (`validate_data.py` lines
570-587), parameterised by the per-entity validators `tcEntity` (no file)
and `tcEntityFile` (with file), which stand for the network-bound
`ThreatConnect.tc_entity`.  `files = none` is Python `files=None`; a
`some []` is falsy in Python (`if files:`), so it skips the length check
and the per-entity file validation.  When files are truthy and the
lengths match, the loop appends BOTH the with-file and the without-file
result for every entity, as the source does. -/
def tc_entities {α φ : Type} (tcEntity : α → Bool) (tcEntityFile : α → φ → Bool)
    (entities : List α) (files : Option (List φ)) : TcEntitiesResult :=
  match files with
  | Option.some fs =>
    if fs.isEmpty then TcEntitiesResult.results (entities.map tcEntity)
    else if entities.length ≠ fs.length then
      TcEntitiesResult.lengthError true
        ["LengthError: Length of files provided does not match length of entities provided."]
    else
      TcEntitiesResult.results
        ((entities.zip fs).flatMap fun ef => [tcEntityFile ef.1 ef.2, tcEntity ef.1])
  | Option.none => TcEntitiesResult.results (entities.map tcEntity)

/-- Model of Python `str()` on the scalar values, as applied by
`compare_dicts` to the expected side (`str(expected.get(item))`). -/
def pyStr : PyVal → String
  | PyVal.none => "None"
  | PyVal.int n => toString n
  | PyVal.str s => s

/-- Python `str(e) != v` for a string against a scalar value: a string is
equal only to an equal string, so any non-string value compares
unequal. -/
def strNeVal (s : String) : PyVal → Bool
  | PyVal.str t => decide (s ≠ t)
  | _ => true

/-- Python `d.get(k)` on a dict: the value at `k`, `None` when absent. -/
def pyGet (d : List (String × PyVal)) (k : String) : PyVal :=
  (d.lookup k).getD PyVal.none

/-- Embedding of the loops of `ThreatConnect.compare_dicts`
(`validate_data.py` lines 664-692), with the mutable `actual` dict
threaded as state.  For each expected key present in actual, the actual
value is compared against `str()` of the expected value (a mismatch sets
valid to False) and the key is popped from actual; an expected key
missing from actual sets valid to False.  The trailing loop over the
remaining `actual.items()` sets valid to False once per leftover entry.
Returns the final valid flag and the final state of `actual`. -/
def compareDictsLoop :
    List (String × PyVal) → List (String × PyVal) → Bool → Bool × List (String × PyVal)
  | [], actual, valid => (valid && actual.isEmpty, actual)
  | (k, ev) :: rest, actual, valid =>
    if k ∈ actual.map Prod.fst then
      compareDictsLoop rest (actual.filter (fun p => p.1 ≠ k))
        (valid && !(strNeVal (pyStr ev) (pyGet actual k)))
    else compareDictsLoop rest actual false

/-- Embedding of `ThreatConnect.compare_dicts`: runs the loops starting
from `valid = True`, returning the verdict and the final `actual`. -/
def compare_dicts (expected actual : List (String × PyVal)) : Bool × List (String × PyVal) :=
  compareDictsLoop expected actual true

/-- Embedding of the loops of `ThreatConnect.compare_lists`
(`validate_data.py` lines 694-713), with the mutable `actual` list
threaded as state: each expected item found in actual is removed from it
(`actual.remove(item)` drops the first occurrence); a missing expected
item sets valid to False; each leftover actual item sets valid to
False. -/
def compareListsLoop {α : Type} [DecidableEq α] :
    List α → List α → Bool → Bool × List α
  | [], actual, valid => (valid && actual.isEmpty, actual)
  | x :: rest, actual, valid =>
    if x ∈ actual then compareListsLoop rest (actual.erase x) valid
    else compareListsLoop rest actual false

/-- Embedding of `ThreatConnect.compare_lists`: runs the loops starting
from `valid = True`, returning the verdict and the final `actual`. -/
def compare_lists {α : Type} [DecidableEq α] (expected actual : List α) : Bool × List α :=
  compareListsLoop expected actual true

/-- Round-half-to-even to an integer, the nearest-value rounding used
both by IEEE-754 binary64 arithmetic (on significands) and by Python's
built-in `round`. -/
def roundHalfEven (q : ℚ) : ℤ :=
  if q - ⌊q⌋ < 1/2 then ⌊q⌋
  else if 1/2 < q - ⌊q⌋ then ⌊q⌋ + 1
  else if ⌊q⌋ % 2 = 0 then ⌊q⌋ else ⌊q⌋ + 1

/-- The value of the IEEE-754 binary64 double nearest to a nonnegative
rational (ties to even): the exact result is scaled so that its
significand occupies 53 bits, rounded to an integer significand half-to-
even, and scaled back.  Exponents are unbounded — no overflow or
subnormals at the magnitudes handled by this code.  Every Python float
operation on exact operands returns `fl` of the exact result. -/
def fl (x : ℚ) : ℚ :=
  if x ≤ 0 then 0
  else (roundHalfEven (x / 2 ^ (Int.log 2 x - 52)) : ℚ) * 2 ^ (Int.log 2 x - 52)

/-- The exact decimal-rounding step of Python `round(x, 2)`: the nearest
multiple of 1/100 (ties to even) of the argument. -/
def pyRound2 (q : ℚ) : ℚ := (roundHalfEven (q * 100) : ℚ) / 100

/-- Python `round(x, 2)` applied to a float `x` (whose exact value is the
argument): CPython rounds the double's exact value to the nearest
multiple of 1/100, ties to even, and returns the double nearest to that
decimal value. -/
def pyRoundFloat2 (x : ℚ) : ℚ := fl (pyRound2 x)

/-- The running total accumulated by `ThreatConnect._convert_to_percent`
(`validate_data.py` lines 789-792): the sum over every key of the counts
in its sub-dict. -/
def totalCount (batch_submit_totals : List (String × List (String × Nat))) : Nat :=
  (batch_submit_totals.map (fun kv => (kv.2.map Prod.snd).sum)).sum

/-- Embedding of `ThreatConnect._convert_to_percent` (`validate_data.py`
lines 786-795; the leading underscore of the source name is dropped):
100 when the requested count exceeds the total, otherwise
`round((validation_count / total) * 100, 2)` evaluated in Python float
arithmetic — the int/int division rounds to a double, the product rounds
again, and `round` returns a double (each float step modelled by
`fl`). -/
def convert_to_percent (validation_count : Nat)
    (batch_submit_totals : List (String × List (String × Nat))) : ℚ :=
  if totalCount batch_submit_totals < validation_count then 100
  else
    pyRoundFloat2
      (fl (fl ((validation_count : ℚ) / (totalCount batch_submit_totals : ℚ)) * 100))

/-- Model of Python `re.match(test_data, app_data)` being a match: the
semantics of `re.match` anchor the match at the START of the subject, so
it succeeds iff the pattern matches some prefix of the subject.  The
pattern handed to the external `re` module is modelled as a
`RegularExpression` over characters. -/
def reMatch (test_data : RegularExpression Char) (app_data : String) : Bool :=
  (List.range (app_data.length + 1)).any fun n => test_data.rmatch (app_data.toList.take n)

/-- Embedding of `Validator.operator_regex_match` (`validate_data.py`
lines 275-288): fails with a message iff `re.match(test_data, app_data)`
is `None`. -/
def operator_regex_match (app_data : String) (test_data : RegularExpression Char) :
    Bool × String :=
  if reMatch test_data app_data = false then
    (false, "app_data id not match regex")
  else (true, "")

/-- The behaviour the spec claims for `regexMatch`, stated from the
spec's words: an anchors-free match — the pattern matches SOMEWHERE in
the value (`re.search` semantics). -/
def matchesSomewhere (test_data : RegularExpression Char) (app_data : String) : Prop :=
  ∃ pre mid post, app_data.toList = pre ++ mid ++ post ∧ mid ∈ test_data.matches'

/-- A submitted batch entity: its `'type'` entry (`sub_data.get('type')`,
possibly absent) plus an identifying payload standing for the rest of the
entity dict. -/
structure BatchEntity where
  etype : Option String
  payload : Nat
deriving DecidableEq, Repr

/-- One step of the grouping dict built by
`ThreatConnect._partition_batch_data` (`validate_data.py` lines 797-809):
if the entity's type is not yet a key of the sub-dict, a new singleton
partition is inserted, otherwise the entity is appended to its
partition. -/
def addToPartition (p : List (Option String × List BatchEntity)) (e : BatchEntity) :
    List (Option String × List BatchEntity) :=
  if p.any (fun kv => kv.1 = e.etype) then
    p.map (fun kv => if kv.1 = e.etype then (kv.1, kv.2 ++ [e]) else kv)
  else p ++ [(e.etype, [e])]

/-- The inner loop of `_partition_batch_data`: group one top-level key's
entities by their `'type'`. -/
def partitionSub (entities : List BatchEntity) : List (Option String × List BatchEntity) :=
  entities.foldl addToPartition []

/-- Embedding of `ThreatConnect._partition_batch_data` (`validate_data.py`
lines 797-809; the leading underscore of the source name is dropped):
partition the batch data by top-level key, then by entity type. -/
def partition_batch_data (data : List (String × List BatchEntity)) :
    List (String × List (Option String × List BatchEntity)) :=
  data.map (fun kv => (kv.1, partitionSub kv.2))

/-- `math.ceil(len(sub_partition) * (validation_percent / 100))` from
`ThreatConnect.batch` (`validate_data.py` line 544), evaluated in Python
float arithmetic: the division `validation_percent / 100` rounds to a
double, the product rounds again, and `math.ceil` is exact on the
double's value. -/
def sampleSize (percent : ℚ) (n : Nat) : Nat := ⌈fl ((n : ℚ) * fl (percent / 100))⌉₊

/-- The sampling loop of `ThreatConnect.batch` over one batch log file
(`validate_data.py` lines 540-545), parameterised by the external
`random.sample` collaborator: for every partition of the partitioned
data, `sample_size` entities are drawn from that partition alone, and all
samples are concatenated into `sample_validation_data`. -/
def sampleBatchData (sample : List BatchEntity → Nat → List BatchEntity) (percent : ℚ)
    (data : List (String × List BatchEntity)) : List BatchEntity :=
  (partition_batch_data data).flatMap
    (fun kv => kv.2.flatMap (fun sub => sample sub.2 (sampleSize percent sub.2.length)))

/-- A staged playbook output value: a scalar string or an array of
strings (the value shapes the claim exercises). -/
inductive PBValue where
  | strVal : String → PBValue
  | arrVal : List String → PBValue
deriving DecidableEq, Repr

/-- Whether a playbook variable type tag is an Array type (spec §4.2:
`isArrayType` checks the `Array` suffix). -/
def isArrayType (t : String) : Bool := "Array".toList.isSuffixOf t.toList

/-- Modelled from the spec: the playbook `add_output` implementation is
not under `src/` (only its tests are), so the OutputAccumulator is
modelled from spec §3 (OutputBuffer invariant) and §4.5 `addOutput`: the
buffer maps `(variableName, variableType)` to the accumulated value; for
Array types in append mode a second write to the same variable
concatenates, in no-append mode it replaces, and non-Array types always
replace. -/
def add_output (append : Bool) (buffer : List ((String × String) × PBValue))
    (name vtype : String) (value : PBValue) : List ((String × String) × PBValue) :=
  match buffer.lookup (name, vtype) with
  | Option.none => buffer ++ [((name, vtype), value)]
  | Option.some old =>
    let merged :=
      if append && isArrayType vtype then
        match old, value with
        | PBValue.arrVal xs, PBValue.arrVal ys => PBValue.arrVal (xs ++ ys)
        | _, _ => value
      else value
    buffer.map (fun kv => if kv.1 = (name, vtype) then (kv.1, merged) else kv)

/-- Modelled from the spec (§4.4 `write`): a single store write fully
overwrites any prior content under the key. -/
def kvWrite (store : List ((String × String) × PBValue)) (k : String × String)
    (v : PBValue) : List ((String × String) × PBValue) :=
  (store.filter (fun kv => kv.1 ≠ k)) ++ [(k, v)]

/-- Modelled from the spec (§4.5 `flush` / the tests' `write_output`):
every staged `(name, type) -> value` is written to the store. -/
def write_output (buffer store : List ((String × String) × PBValue)) :
    List ((String × String) × PBValue) :=
  buffer.foldl (fun st kv => kvWrite st kv.1 kv.2) store

/-- Modelled from the spec (§4.4 `read`): the value stored under the
variable's key, if any. -/
def read_variable (store : List ((String × String) × PBValue)) (name vtype : String) :
    Option PBValue :=
  store.lookup (name, vtype)

/-- C1: the claim says the 'lt'/'<', 'le'/'<=', 'gt'/'>', 'ge'/'>=' tokens
dispatch to comparisons that pass iff app_data is less than / at most /
greater than / at least test_data.  The dispatch is as claimed, but every
one of the four dispatched functions computes `operator.ne` instead of an
order comparison: with app_data = 2, test_data = 1 the lt/le operators pass
although 2 < 1 and 2 ≤ 1 are false, and with app_data = 1, test_data = 2
the gt/ge operators pass although 1 > 2 and 1 ≥ 2 are false. -/
theorem ordering_operators_ignore_order :
    get_operator "lt" = some OpFun.lt ∧ get_operator "<" = some OpFun.lt ∧
    get_operator "le" = some OpFun.le ∧ get_operator "<=" = some OpFun.le ∧
    get_operator "gt" = some OpFun.gt ∧ get_operator ">" = some OpFun.gt ∧
    get_operator "ge" = some OpFun.ge ∧ get_operator ">=" = some OpFun.ge ∧
    operator_lt (PyVal.int 2) (PyVal.int 1) = (true, "") ∧ ¬ ((2 : Int) < 1) ∧
    operator_le (PyVal.int 2) (PyVal.int 1) = (true, "") ∧ ¬ ((2 : Int) ≤ 1) ∧
    operator_gt (PyVal.int 1) (PyVal.int 2) = (true, "") ∧ ¬ ((1 : Int) > 2) ∧
    operator_ge (PyVal.int 1) (PyVal.int 2) = (true, "") ∧ ¬ ((1 : Int) ≥ 2) := by
  decide

/-- The model ndiff of a sequence against itself consists of `space` lines
only. -/
theorem ndiff_self (l : List Char) : ndiff l l = l.map (fun _ => DiffLine.space) := by
  induction l with
  | nil => simp [ndiff]
  | cons x xs ih => simp [ndiff, ih]

/-- The details loop appends nothing when every diff line is a `space`
line. -/
theorem detailsLoop_all_space (max_diff : Nat) :
    ∀ (l : List DiffLine) (i c : Nat), (∀ d ∈ l, d = DiffLine.space) →
      detailsLoop max_diff l i c = [] := by
  intro l
  induction l with
  | nil => intro i c _; rfl
  | cons d rest ih =>
    intro i c h
    have hd : d = DiffLine.space := h d (List.mem_cons_self _ _)
    subst hd
    simpa [detailsLoop] using ih (i + 1) c (fun x hx => h x (List.mem_cons_of_mem _ hx))

/-- The model ndiff of two distinct sequences contains a non-`space`
line. -/
theorem ndiff_has_edit :
    ∀ (l m : List Char), l ≠ m → ∃ d ∈ ndiff l m, d ≠ DiffLine.space := by
  intro l
  induction l with
  | nil =>
    intro m hm
    cases m with
    | nil => exact absurd rfl hm
    | cons y ys => exact ⟨DiffLine.plus, by simp [ndiff], by simp⟩
  | cons x xs ih =>
    intro m hm
    cases m with
    | nil => exact ⟨DiffLine.minus, by simp [ndiff], by simp⟩
    | cons y ys =>
      by_cases hxy : x = y
      · subst hxy
        have hxs : xs ≠ ys := fun h => hm (by rw [h])
        obtain ⟨d, hd, hds⟩ := ih ys hxs
        refine ⟨d, ?_, hds⟩
        simp only [ndiff, if_pos rfl]
        exact List.mem_cons_of_mem _ hd
      · exact ⟨DiffLine.minus, by simp [ndiff, hxy], by simp⟩

/-- The details loop appends at least one detail as soon as some diff line
is not a `space` line (the append happens before the max-diff break is
checked). -/
theorem detailsLoop_ne_nil (max_diff : Nat) :
    ∀ (l : List DiffLine) (i c : Nat), (∃ d ∈ l, d ≠ DiffLine.space) →
      detailsLoop max_diff l i c ≠ [] := by
  intro l
  induction l with
  | nil => intro i c h; obtain ⟨d, hd, _⟩ := h; simp at hd
  | cons a rest ih =>
    intro i c h
    cases a with
    | space =>
      obtain ⟨d, hd, hds⟩ := h
      rcases List.mem_cons.mp hd with h1 | h2
      · exact absurd h1 hds
      · simpa [detailsLoop] using ih (i + 1) c ⟨d, h2, hds⟩
    | minus => simp [detailsLoop]
    | plus => simp [detailsLoop]

/-- The number of per-index difference details appended by the details
loop, plus the running `diff_count`, never exceeds `max_diff + 2`: the
loop appends one last detail when `diff_count > max_diff` before
breaking. -/
theorem detailsLoop_count_le (max_diff : Nat) :
    ∀ (l : List DiffLine) (i c : Nat), c ≤ max_diff + 1 →
      (detailsLoop max_diff l i c).countP (fun d => d.isDifference) + c ≤ max_diff + 2 := by
  intro l
  induction l with
  | nil => intro i c hc; simp [detailsLoop]; omega
  | cons a rest ih =>
    intro i c hc
    cases a with
    | space => simpa [detailsLoop] using ih (i + 1) c hc
    | minus =>
      by_cases hlt : max_diff < c
      · simp [detailsLoop, hlt, List.countP_cons, Detail.isDifference]
        omega
      · have h2 := ih (i + 1) (c + 1) (by omega)
        simp [detailsLoop, hlt, List.countP_cons, Detail.isDifference] at h2 ⊢
        omega
    | plus =>
      by_cases hlt : max_diff < c
      · simp [detailsLoop, hlt, List.countP_cons, Detail.isDifference]
        omega
      · have h2 := ih (i + 1) (c + 1) (by omega)
        simp [detailsLoop, hlt, List.countP_cons, Detail.isDifference] at h2 ⊢
        omega

/-- Each rendered detail is a non-empty string (it starts with a newline
marker). -/
theorem renderDetail_data_ne_nil (d : Detail) : (renderDetail d).data ≠ [] := by
  cases d with
  | missing i =>
    simp only [renderDetail, String.data_append]
    exact List.append_ne_nil_of_left_ne_nil (by decide) _
  | extra i =>
    simp only [renderDetail, String.data_append]
    exact List.append_ne_nil_of_left_ne_nil (by decide) _
  | maxReached => decide

/-- Rendering a non-empty detail list yields a non-empty string. -/
theorem renderDetails_ne_empty {l : List Detail} (h : l ≠ []) : renderDetails l ≠ "" := by
  cases l with
  | nil => exact absurd rfl h
  | cons d rest =>
    intro hcon
    have hdata : (renderDetail d ++ renderDetails rest).data = [] := by
      rw [show renderDetail d ++ renderDetails rest = renderDetails (d :: rest) from rfl, hcon]
    rw [String.data_append] at hdata
    exact renderDetail_data_ne_nil d (List.append_eq_nil.mp hdata).1

/-- C3 (counterexample): the claim fails as stated.  (a) For the
structurally different pair `1 ≠ 2` the comparison fails but the details
are empty, because `difflib.ndiff` raises `TypeError` on integers and
`Validator.details` swallows it.  (b) For two 13-character strings with no
character in common, 12 differences are reported although `max_diff` is
10: the loop appends a detail first and only then checks the limit, so it
overshoots the configured maximum. -/
theorem operator_eq_claim_counterexample :
    (PyVal.int 1 ≠ PyVal.int 2 ∧
      operator_eq 10 (PyVal.int 1) (PyVal.int 2) = (false, "")) ∧
    ((diffDetails 10 (PyVal.str "aaaaaaaaaaaaa") (PyVal.str "bbbbbbbbbbbbb") "eq").countP
        (fun d => d.isDifference) = 12 ∧ 10 < 12) := by
  decide

/-- C3 (amended): `operator_eq(a, a)` always passes with empty details;
`operator_eq(a, b)` for structurally different `a ≠ b` fails; when both
sides are strings the failure details are non-empty; and the number of
reported per-index differences never exceeds `max_diff + 2` (the loop can
append up to two details beyond the configured maximum before it breaks),
while non-diffable inputs produce empty details. -/
theorem operator_eq_spec (max_diff : Nat) :
    (∀ a, operator_eq max_diff a a = (true, "")) ∧
    (∀ a b, a ≠ b → (operator_eq max_diff a b).1 = false) ∧
    (∀ s t : String, s ≠ t → (operator_eq max_diff (PyVal.str s) (PyVal.str t)).2 ≠ "") ∧
    (∀ a b op, (diffDetails max_diff a b op).countP (fun d => d.isDifference) ≤ max_diff + 2) := by
  refine ⟨?_, ?_, ?_, ?_⟩
  · intro a
    have hd : diffDetails max_diff a a "eq" = [] := by
      cases a with
      | none => simp [diffDetails]
      | int n => simp [diffDetails, diffValues]
      | str s =>
        have hloop : detailsLoop max_diff (ndiff s.data s.data) 0 0 = [] := by
          rw [ndiff_self]
          refine detailsLoop_all_space max_diff _ 0 0 ?_
          intro d hdm
          rcases List.mem_map.mp hdm with ⟨x, _, hx⟩
          exact hx.symm
        simp [diffDetails, diffValues, hloop]
    simp [operator_eq, details, hd, renderDetails]
  · intro a b hab
    simp [operator_eq, hab]
  · intro s t hst
    have hlist : s.toList ≠ t.toList := fun h => hst (String.ext h)
    have hne := detailsLoop_ne_nil max_diff (ndiff s.toList t.toList) 0 0
      (ndiff_has_edit s.toList t.toList hlist)
    have hd : diffDetails max_diff (PyVal.str s) (PyVal.str t) "eq" =
        detailsLoop max_diff (ndiff s.toList t.toList) 0 0 := by
      simp [diffDetails, diffValues]
    simpa [operator_eq, details, hd] using renderDetails_ne_empty hne
  · intro a b op
    have hgen : ∀ l, (detailsLoop max_diff l 0 0).countP (fun d => d.isDifference) ≤
        max_diff + 2 := by
      intro l
      have := detailsLoop_count_le max_diff l 0 0 (by omega)
      omega
    cases a <;> cases b <;> simp only [diffDetails, diffValues] <;> split <;>
      first | exact hgen _ | simp

/-- C3 (witness for the amended claim): at the concrete distinct strings
"abc" and "abd" the failing comparison carries non-empty details. -/
theorem operator_eq_spec_witness :
    (operator_eq 10 (PyVal.str "abc") (PyVal.str "abd")).2 ≠ "" :=
  (operator_eq_spec 10).2.2.1 "abc" "abd" (by decide)

/-- C9: `Validator.details` returns the empty string whenever app_data is
`None`, or test_data is `None`, or the operator token is neither `'eq'`
nor `'ne'`; a comparison against a missing value therefore never produces
diff details. -/
theorem details_empty_on_none_or_other_op (max_diff : Nat) (a b : PyVal) (op : String)
    (h : a = PyVal.none ∨ b = PyVal.none ∨ (op ≠ "eq" ∧ op ≠ "ne")) :
    details max_diff a b op = "" := by
  have hcond : ¬ (a ≠ PyVal.none ∧ b ≠ PyVal.none ∧ (op = "eq" ∨ op = "ne")) := by
    rintro ⟨h1, h2, h3⟩
    rcases h with h | h | h
    · exact h1 h
    · exact h2 h
    · rcases h3 with h3 | h3
      · exact h.1 h3
      · exact h.2 h3
  have hd : diffDetails max_diff a b op = [] := by
    rw [diffDetails, if_neg hcond]
  simp [details, hd, renderDetails]

/-- C9 (witness): a concrete comparison against `None` has empty
details. -/
theorem details_empty_on_none_witness : details 10 PyVal.none (PyVal.str "x") "eq" = "" :=
  details_empty_on_none_or_other_op 10 PyVal.none (PyVal.str "x") "eq" (Or.inl rfl)

/-- C4: with two excluded keys the source raises an uncaught
`KeyError('exclude')` — `del kwargs['exclude']` sits inside the exclusion
loop, so the second iteration deletes an already-deleted kwargs key.
Evaluating the embedding at app_data = test_data = `{a:1, b:2, c:3}` with
exclude = `['a','b']` yields the error instead of a comparison result,
while a single excluded key still returns the deep-diff result. -/
theorem operator_json_eq_keyerror :
    operator_json_eq
      [("a", PyVal.int 1), ("b", PyVal.int 2), ("c", PyVal.int 3)]
      [("a", PyVal.int 1), ("b", PyVal.int 2), ("c", PyVal.int 3)]
      (some ["a", "b"]) = Except.error "KeyError: 'exclude'" ∧
    operator_json_eq
      [("a", PyVal.int 1), ("b", PyVal.int 2), ("c", PyVal.int 3)]
      [("a", PyVal.int 1), ("b", PyVal.int 2), ("c", PyVal.int 3)]
      (some ["a"]) = Except.ok (true, "") := by
  decide

/-- C2: at two entities and one file the source takes the length-mismatch
branch and returns the dict literal with `'valid': True` — a result that
does not indicate failure although its errors list names a LengthError
(no exception is raised).  Moreover an empty files list is falsy in
Python, so a 1-entity/0-files mismatch is not even detected and the
normal per-entity results are returned. -/
theorem tc_entities_length_mismatch_valid_true :
    tc_entities (fun _ : Nat => true) (fun (_ : Nat) (_ : Nat) => true) [1, 2] (some [7]) =
      TcEntitiesResult.lengthError true
        ["LengthError: Length of files provided does not match length of entities provided."] ∧
    tc_entities (fun _ : Nat => true) (fun (_ : Nat) (_ : Nat) => true) [1] (some []) =
      TcEntitiesResult.results [true] := by
  decide

/-- The final `actual` of the compare_dicts loops keeps exactly the
entries whose key does not occur among the expected keys, whatever the
running valid flag. -/
theorem compareDictsLoop_final_actual :
    ∀ (expected actual : List (String × PyVal)) (v : Bool),
      (compareDictsLoop expected actual v).2 =
        actual.filter (fun p => decide (p.1 ∉ expected.map Prod.fst)) := by
  intro e
  induction e with
  | nil => intro a v; simp [compareDictsLoop]
  | cons kv rest ih =>
    obtain ⟨k, ev⟩ := kv
    intro a v
    by_cases hk : k ∈ a.map Prod.fst
    · rw [compareDictsLoop, if_pos hk, ih, List.filter_filter]
      apply List.filter_congr
      intro x _
      by_cases hxk : x.1 = k
      · simp [hxk]
      · simp [hxk, List.mem_cons]
    · rw [compareDictsLoop, if_neg hk, ih]
      apply List.filter_congr
      intro x hx
      have hxk : x.1 ≠ k := fun h => hk (h ▸ List.mem_map_of_mem Prod.fst hx)
      simp [List.mem_cons, hxk]

/-- The final `actual` of the compare_lists loops holds each value with
its original multiplicity reduced by the expected multiplicity. -/
theorem compareListsLoop_final_count {α : Type} [DecidableEq α] :
    ∀ (expected actual : List α) (v : Bool) (x : α),
      ((compareListsLoop expected actual v).2).count x =
        actual.count x - expected.count x := by
  intro e
  induction e with
  | nil => intro a v x; simp [compareListsLoop]
  | cons y rest ih =>
    intro a v x
    by_cases hy : y ∈ a
    · rw [compareListsLoop, if_pos hy, ih, List.count_erase, List.count_cons]
      by_cases hyx : y = x
      · subst hyx; simp; omega
      · simp [hyx, Ne.symm hyx]
    · rw [compareListsLoop, if_neg hy, ih, List.count_cons]
      by_cases hyx : y = x
      · subst hyx
        have h0 : a.count y = 0 := List.count_eq_zero.mpr hy
        simp [h0]
      · simp [hyx]

/-- C7 (counterexample): compare_dicts and compare_lists mutate their
`actual` argument — after comparing equal one-entry containers the actual
container has been emptied, so it does not contain the same entries as
before the call. -/
theorem compare_helpers_mutation_counterexample :
    (compare_lists [PyVal.str "T1"] [PyVal.str "T1"]).2 = [] ∧
    ([] : List PyVal) ≠ [PyVal.str "T1"] ∧
    (compare_dicts [("k", PyVal.str "v")] [("k", PyVal.str "v")]).2 = [] ∧
    ([] : List (String × PyVal)) ≠ [("k", PyVal.str "v")] := by
  decide

/-- C7 (amended): the helpers never modify `expected` (it is only read —
the embedding accordingly returns only the final `actual`), but both
mutate `actual`: after `compare_dicts(expected, actual)` the actual dict
holds exactly its original entries whose key is not among the expected
keys, and after `compare_lists(expected, actual)` each value remains with
multiplicity `count(actual) - count(expected)` — every matched expected
item removes one occurrence. -/
theorem compare_helpers_final_actual :
    (∀ (expected actual : List (String × PyVal)),
      (compare_dicts expected actual).2 =
        actual.filter (fun p => decide (p.1 ∉ expected.map Prod.fst))) ∧
    (∀ (expected actual : List PyVal) (x : PyVal),
      ((compare_lists expected actual).2).count x =
        actual.count x - expected.count x) :=
  ⟨fun e a => compareDictsLoop_final_actual e a true,
   fun e a x => compareListsLoop_final_count e a true x⟩

/-- Round-half-to-even never rounds above an integer upper bound of its
argument. -/
theorem roundHalfEven_le {q : ℚ} {n : ℤ} (h : q ≤ (n : ℚ)) : roundHalfEven q ≤ n := by
  have hfl : ⌊q⌋ ≤ n := by simpa using Int.floor_mono h
  unfold roundHalfEven
  by_cases h1 : q - ⌊q⌋ < 1/2
  · rw [if_pos h1]
    exact hfl
  · have hhalf : (1 : ℚ)/2 ≤ q - ⌊q⌋ := le_of_not_lt h1
    have hlt : ⌊q⌋ < n := by
      by_contra hc
      have heq : ⌊q⌋ = n := le_antisymm hfl (le_of_not_lt hc)
      have hfloor : ((n : ℚ)) ≤ q - 1/2 := by
        rw [← heq]
        linarith
      linarith
    have hsucc : ⌊q⌋ + 1 ≤ n := hlt
    simp only [if_neg h1]
    split
    · exact hsucc
    · split
      · exact hfl
      · exact hsucc

/-- `round(x, 2)` never exceeds 100 when its argument is at most 100. -/
theorem pyRound2_le_100 {q : ℚ} (h : q ≤ 100) : pyRound2 q ≤ 100 := by
  have h1 : q * 100 ≤ ((10000 : ℤ) : ℚ) := by push_cast; linarith
  have h2 := roundHalfEven_le h1
  unfold pyRound2
  rw [div_le_iff₀ (by norm_num : (0 : ℚ) < 100)]
  calc (roundHalfEven (q * 100) : ℚ) ≤ ((10000 : ℤ) : ℚ) := by exact_mod_cast h2
    _ = 100 * 100 := by norm_num

/-- The base-2 integer logarithm is determined by its bracketing powers
of two. -/
theorem int_log2_eq {r : ℚ} {e : ℤ} (hr : 0 < r) (h1 : (2:ℚ) ^ e ≤ r) (h2 : r < 2 ^ (e + 1)) :
    Int.log 2 r = e := by
  have hb : (1:ℕ) < 2 := by norm_num
  have hle : e ≤ Int.log 2 r := by
    rw [← Int.zpow_le_iff_le_log hb hr]
    exact_mod_cast h1
  have hlt : Int.log 2 r < e + 1 := by
    rw [← Int.lt_zpow_iff_log_lt hb hr]
    exact_mod_cast h2
  omega

/-- Evaluation rule for `roundHalfEven` below the rounding boundary. -/
theorem roundHalfEven_eval_lt {q : ℚ} {n : ℤ} (hn : ⌊q⌋ = n) (h : q - n < 1/2) :
    roundHalfEven q = n := by
  rw [roundHalfEven, hn, if_pos h]

/-- Evaluation rule for `roundHalfEven` above the rounding boundary. -/
theorem roundHalfEven_eval_gt {q : ℚ} {n : ℤ} (hn : ⌊q⌋ = n) (h : 1/2 < q - n) :
    roundHalfEven q = n + 1 := by
  rw [roundHalfEven, hn, if_neg (by linarith), if_pos h]

/-- Evaluation rule for `roundHalfEven` at a tie with odd floor: round
up to the even neighbour. -/
theorem roundHalfEven_eval_tie_odd {q : ℚ} {n : ℤ} (hn : ⌊q⌋ = n) (h : q - n = 1/2)
    (hodd : n % 2 = 1) : roundHalfEven q = n + 1 := by
  rw [roundHalfEven, hn, if_neg (by rw [h]; norm_num), if_neg (by rw [h]; norm_num),
    if_neg (by omega)]

/-- Evaluation rule for `fl`: exhibiting the binary exponent bracket and
the rounded significand determines the double. -/
theorem fl_eval {x : ℚ} {e m : ℤ} (hx : 0 < x) (h1 : (2:ℚ) ^ e ≤ x) (h2 : x < 2 ^ (e + 1))
    (hm : roundHalfEven (x / 2 ^ (e - 52)) = m) :
    fl x = m * 2 ^ (e - 52) := by
  rw [fl, if_neg (not_le.mpr hx), int_log2_eq hx h1 h2, hm]

/-- Rounding to the nearest double never crosses an integer upper bound
of at most 2^52 (such integers are exactly representable). -/
theorem fl_le_intCast {x : ℚ} {M : ℤ} (hM0 : 0 < M) (hM : M ≤ 2 ^ 52) (hx : x ≤ (M : ℚ)) :
    fl x ≤ (M : ℚ) := by
  rw [fl]
  split
  · exact_mod_cast hM0.le
  · rename_i hpos
    have hx0 : 0 < x := not_le.mp hpos
    set e := Int.log 2 x with he
    have hlow : (2:ℚ) ^ e ≤ x := by
      have h0 := Int.zpow_log_le_self (b := 2) (R := ℚ) (by norm_num) hx0
      rw [he]
      exact_mod_cast h0
    have he52 : e ≤ 52 := by
      have h2e : (2:ℚ) ^ e ≤ (2:ℚ) ^ (52:ℤ) := by
        calc (2:ℚ) ^ e ≤ x := hlow
          _ ≤ (M:ℚ) := hx
          _ ≤ ((2 ^ 52 : ℤ) : ℚ) := by exact_mod_cast hM
          _ = (2:ℚ) ^ (52:ℤ) := by norm_num
      exact (zpow_le_zpow_iff_right₀ (by norm_num : (1:ℚ) < 2)).mp h2e
    set s : ℤ := e - 52 with hs
    have hsnp : 0 ≤ -s := by omega
    have h2s : (0:ℚ) < 2 ^ s := zpow_pos (by norm_num) s
    have hns : ((M * 2 ^ (-s).toNat : ℤ) : ℚ) * 2 ^ s = (M : ℚ) := by
      push_cast
      rw [show ((2:ℚ) ^ (-s).toNat) = (2:ℚ) ^ ((-s).toNat : ℤ) from (zpow_natCast _ _).symm,
        Int.toNat_of_nonneg hsnp, mul_assoc, ← zpow_add₀ (by norm_num : (2:ℚ) ≠ 0)]
      norm_num
    have hq : x / 2 ^ s ≤ ((M * 2 ^ (-s).toNat : ℤ) : ℚ) := by
      rw [div_le_iff₀ h2s, hns]
      exact hx
    have hr := roundHalfEven_le hq
    calc (roundHalfEven (x / 2 ^ s) : ℚ) * 2 ^ s
        ≤ ((M * 2 ^ (-s).toNat : ℤ) : ℚ) * 2 ^ s := by
          apply mul_le_mul_of_nonneg_right _ h2s.le
          exact_mod_cast hr
      _ = (M : ℚ) := hns

/-- C10 (counterexample): at count = 23 of total = 160 the program's
float arithmetic computes `(23/160)*100` as a double just below 14.375
and `round(·, 2)` returns 14.37, while the claimed exact formula
`round(23/160*100, 2)` is a tie rounded half-to-even to 14.38 — the
function's value is not the exact decimal rounding of the exact
ratio. -/
theorem convert_to_percent_float_counterexample :
    convert_to_percent 23 [("indicator", [("Address", 160)])] ≠
      pyRound2 ((23 : ℚ) / 160 * 100) ∧
    pyRound2 ((23 : ℚ) / 160 * 100) = 719 / 50 := by
  have hconv : convert_to_percent 23 [("indicator", [("Address", 160)])] =
      fl (pyRound2 (fl (fl ((23:ℚ) / 160) * 100))) := by
    rw [convert_to_percent, if_neg (by decide)]
    rw [pyRoundFloat2]
    norm_num [totalCount]
  have s1 : fl ((23:ℚ)/160) = 5179139571476070 * 2^((-3:ℤ) - 52) :=
    fl_eval (by norm_num) (by norm_num) (by norm_num)
      (roundHalfEven_eval_lt (n := 5179139571476070)
        (by rw [Int.floor_eq_iff]; norm_num) (by norm_num))
  have s2 : fl ((5179139571476070 * 2^((-3:ℤ) - 52) : ℚ) * 100) =
      8092405580431359 * 2^((3:ℤ) - 52) :=
    fl_eval (by norm_num) (by norm_num) (by norm_num)
      (roundHalfEven_eval_lt (n := 8092405580431359)
        (by rw [Int.floor_eq_iff]; norm_num) (by norm_num))
  have s3 : pyRound2 ((8092405580431359 * 2^((3:ℤ) - 52) : ℚ)) = 1437 / 100 := by
    rw [pyRound2, roundHalfEven_eval_lt (n := 1437)
      (by rw [Int.floor_eq_iff]; norm_num) (by norm_num)]
    norm_num
  have s4 : fl ((1437 : ℚ) / 100) = 8089590830664253 * 2^((3:ℤ) - 52) :=
    fl_eval (by norm_num) (by norm_num) (by norm_num)
      (roundHalfEven_eval_lt (n := 8089590830664253)
        (by rw [Int.floor_eq_iff]; norm_num) (by norm_num))
  have s5 : pyRound2 ((23:ℚ) / 160 * 100) = 719 / 50 := by
    rw [pyRound2, roundHalfEven_eval_tie_odd (n := 1437)
      (by rw [Int.floor_eq_iff]; norm_num) (by norm_num) (by norm_num)]
    norm_num
  rw [hconv, s1, s2, s3, s4, s5]
  norm_num

/-- C10 (amended): with a positive total of submitted entities, the
conversion returns exactly 100 whenever the requested count exceeds the
total, and otherwise returns `round(·, 2)` of the float evaluation of
`(count / total) * 100` — which can differ from the exact decimal
rounding of the exact ratio by one unit in the second decimal; in both
cases the returned percentage never exceeds 100. -/
theorem convert_to_percent_spec (validation_count : Nat)
    (batch_submit_totals : List (String × List (String × Nat)))
    (hpos : 0 < totalCount batch_submit_totals) :
    (totalCount batch_submit_totals < validation_count →
        convert_to_percent validation_count batch_submit_totals = 100) ∧
    (validation_count ≤ totalCount batch_submit_totals →
        convert_to_percent validation_count batch_submit_totals =
          pyRoundFloat2
            (fl (fl ((validation_count : ℚ) / (totalCount batch_submit_totals : ℚ)) * 100))) ∧
    convert_to_percent validation_count batch_submit_totals ≤ 100 := by
  refine ⟨?_, ?_, ?_⟩
  · intro h; simp [convert_to_percent, h]
  · intro h; simp [convert_to_percent, Nat.not_lt.mpr h]
  · unfold convert_to_percent
    by_cases h : totalCount batch_submit_totals < validation_count
    · simp [h]
    · simp only [if_neg h]
      have hpos2 : (0 : ℚ) < (totalCount batch_submit_totals : ℚ) := by exact_mod_cast hpos
      have h1 : (validation_count : ℚ) / (totalCount batch_submit_totals : ℚ) ≤ 1 := by
        rw [div_le_one hpos2]
        exact_mod_cast Nat.not_lt.mp h
      have h2 : fl ((validation_count : ℚ) / (totalCount batch_submit_totals : ℚ)) ≤ 1 := by
        have := fl_le_intCast (M := 1) (by norm_num) (by norm_num) (by exact_mod_cast h1)
        exact_mod_cast this
      have h3 : fl ((validation_count : ℚ) / (totalCount batch_submit_totals : ℚ)) * 100 ≤
          (100:ℚ) := by
        calc fl ((validation_count : ℚ) / (totalCount batch_submit_totals : ℚ)) * 100
            ≤ 1 * 100 := mul_le_mul_of_nonneg_right h2 (by norm_num)
          _ = 100 := one_mul _
      have h4 :
          fl (fl ((validation_count : ℚ) / (totalCount batch_submit_totals : ℚ)) * 100) ≤
            (100:ℚ) := by
        have := fl_le_intCast (M := 100) (by norm_num) (by norm_num) (by exact_mod_cast h3)
        exact_mod_cast this
      have h5 := pyRound2_le_100 h4
      rw [pyRoundFloat2]
      have := fl_le_intCast (M := 100) (by norm_num) (by norm_num) (by exact_mod_cast h5)
      exact_mod_cast this

/-- C10 (witness): requesting 2 of 4 submitted entities takes the
ratio-rounding branch, and the result is at most 100. -/
theorem convert_to_percent_spec_witness :
    convert_to_percent 2 [("indicator", [("Address", 4)])] =
      pyRoundFloat2 (fl (fl ((2 : ℚ) / (4 : ℚ)) * 100)) ∧
    convert_to_percent 2 [("indicator", [("Address", 4)])] ≤ 100 :=
  ⟨by
    have h := (convert_to_percent_spec 2 [("indicator", [("Address", 4)])] (by decide)).2.1
      (by decide)
    simpa [totalCount] using h,
   (convert_to_percent_spec 2 [("indicator", [("Address", 4)])] (by decide)).2.2⟩

/-- C5 (counterexample): the pattern `b` matches somewhere in `"ab"`, but
`operator_regex_match` fails on it — `re.match` anchors at the start of
the string, so the claimed anchors-free (match-anywhere) reading is
false. -/
theorem operator_regex_match_counterexample :
    ¬ (((operator_regex_match "ab" (RegularExpression.char 'b')).1 = true) ↔
        matchesSomewhere (RegularExpression.char 'b') "ab") := by
  intro hiff
  have hmem : ['b'] ∈ (RegularExpression.char 'b').matches' := by
    rw [RegularExpression.matches'_char]
    rfl
  have htrue := hiff.mpr ⟨['a'], ['b'], [], rfl, hmem⟩
  exact absurd htrue (by decide)

/-- C5 (amended): `operator_regex_match` passes iff the pattern matches a
PREFIX of app_data — `re.match` anchors the match at the start of the
string (an unanchored anywhere-match would be `re.search`). -/
theorem operator_regex_match_spec (r : RegularExpression Char) (s : String) :
    (operator_regex_match s r).1 = true ↔
      ∃ p q, s.toList = p ++ q ∧ p ∈ r.matches' := by
  have key : reMatch r s = true ↔ ∃ p q, s.toList = p ++ q ∧ p ∈ r.matches' := by
    unfold reMatch
    rw [List.any_eq_true]
    constructor
    · rintro ⟨n, _, hm⟩
      exact ⟨s.toList.take n, s.toList.drop n, (List.take_append_drop n s.toList).symm,
        (RegularExpression.rmatch_iff_matches' _ _).mp hm⟩
    · rintro ⟨p, q, hs, hp⟩
      refine ⟨p.length, ?_, ?_⟩
      · rw [List.mem_range]
        have hlen : p.length ≤ s.toList.length := by
          rw [hs]
          simp
        have hsl : s.toList.length = s.length := rfl
        omega
      · have htake : s.toList.take p.length = p := by
          rw [hs]
          exact List.take_left p q
        rw [htake]
        exact (RegularExpression.rmatch_iff_matches' _ _).mpr hp
  rw [← key]
  unfold operator_regex_match
  rcases hb : reMatch r s
  · simp [hb]
  · simp [hb]

/-- `addToPartition` preserves the partition invariant: every entry's
entities carry the entry's type label and satisfy the ambient
predicate. -/
theorem addToPartition_sound (P : BatchEntity → Prop)
    (acc : List (Option String × List BatchEntity)) (x : BatchEntity)
    (hacc : ∀ tp ∈ acc, ∀ e ∈ tp.2, e.etype = tp.1 ∧ P e) (hx : P x) :
    ∀ tp ∈ addToPartition acc x, ∀ e ∈ tp.2, e.etype = tp.1 ∧ P e := by
  intro tp htp e he
  unfold addToPartition at htp
  by_cases hb : acc.any (fun kv => kv.1 = x.etype) = true
  · rw [if_pos hb] at htp
    rcases List.mem_map.mp htp with ⟨kv, hkv, hmap⟩
    by_cases hk : kv.1 = x.etype
    · rw [if_pos hk] at hmap
      subst hmap
      rcases List.mem_append.mp he with h | h
      · exact hacc kv hkv e h
      · rcases List.mem_singleton.mp h with rfl
        exact ⟨hk.symm, hx⟩
    · rw [if_neg hk] at hmap
      subst hmap
      exact hacc kv hkv e he
  · rw [if_neg hb] at htp
    rcases List.mem_append.mp htp with h | h
    · exact hacc tp h e he
    · rcases List.mem_singleton.mp h with rfl
      rcases List.mem_singleton.mp he with rfl
      exact ⟨rfl, hx⟩

/-- Every partition produced by `partitionSub` is labelled with its
entities' type, and its entities all come from the input list. -/
theorem partitionSub_sound (xs : List BatchEntity) :
    ∀ tp ∈ partitionSub xs, ∀ e ∈ tp.2, e.etype = tp.1 ∧ e ∈ xs := by
  have main : ∀ (l : List BatchEntity) (acc : List (Option String × List BatchEntity)),
      (∀ tp ∈ acc, ∀ e ∈ tp.2, e.etype = tp.1 ∧ e ∈ xs) →
      (∀ e ∈ l, e ∈ xs) →
      ∀ tp ∈ l.foldl addToPartition acc, ∀ e ∈ tp.2, e.etype = tp.1 ∧ e ∈ xs := by
    intro l
    induction l with
    | nil => intro acc hacc _; simpa using hacc
    | cons y rest ih =>
      intro acc hacc hl
      simp only [List.foldl_cons]
      exact ih (addToPartition acc y)
        (addToPartition_sound (· ∈ xs) acc y hacc (hl y (List.mem_cons_self _ _)))
        (fun e he => hl e (List.mem_cons_of_mem _ he))
  exact main xs [] (by simp) (fun e he => he)

/-- C6 (counterexample): at a 100-entity partition and 7 percent, the
float product `100 * (7/100)` rounds to a double just above 7, so the
program draws `ceil` of it = 8 entities — not the `ceil(100 * 7/100)` =
7 of the claimed exact formula. -/
theorem batch_sample_size_counterexample :
    sampleSize 7 100 = 8 ∧ ⌈(100 : ℚ) * (7 / 100)⌉₊ = 7 := by
  constructor
  · rw [sampleSize, show (((100 : ℕ) : ℚ)) = 100 from by norm_num]
    have s1 : fl ((7:ℚ)/100) = 5044031582654956 * 2^((-4:ℤ) - 52) :=
      fl_eval (by norm_num) (by norm_num) (by norm_num)
        (roundHalfEven_eval_gt (n := 5044031582654955)
          (by rw [Int.floor_eq_iff]; norm_num) (by norm_num))
    rw [s1]
    have s2 : fl ((100:ℚ) * (5044031582654956 * 2^((-4:ℤ) - 52))) =
        7881299347898369 * 2^((2:ℤ) - 52) :=
      fl_eval (by norm_num) (by norm_num) (by norm_num)
        (roundHalfEven_eval_gt (n := 7881299347898368)
          (by rw [Int.floor_eq_iff]; norm_num) (by norm_num))
    rw [s2, Nat.ceil_eq_iff (by norm_num)]
    norm_num
  · rw [show ((100 : ℚ) * (7 / 100)) = ((7 : ℕ) : ℚ) from by norm_num, Nat.ceil_natCast]

/-- The per-partition sample size never exceeds the partition size when
the requested percentage is at most 100 and the partition is of
exactly-representable size (so `random.sample` is called within its
contract): the float factor `fl(percent/100)` stays at most 1, and
rounding the product to a double cannot cross the representable
integer `n`. -/
theorem sampleSize_le {percent : ℚ} (hp : percent ≤ 100) {n : Nat} (hn : n ≤ 2 ^ 52) :
    sampleSize percent n ≤ n := by
  unfold sampleSize
  rw [Nat.ceil_le]
  rcases Nat.eq_zero_or_pos n with h0 | h02
  · subst h0
    simp [fl]
  · have hd : fl (percent / 100) ≤ (1:ℚ) := by
      have := fl_le_intCast (M := 1) (by norm_num) (by norm_num)
        (x := percent / 100) (by push_cast; linarith)
      exact_mod_cast this
    have hprod : (n:ℚ) * fl (percent / 100) ≤ (n:ℚ) := by
      calc (n:ℚ) * fl (percent / 100) ≤ (n:ℚ) * 1 :=
          mul_le_mul_of_nonneg_left hd (by positivity)
        _ = n := mul_one _
    have := fl_le_intCast (M := (n:ℤ)) (by exact_mod_cast h02) (by exact_mod_cast hn)
      (x := (n:ℚ) * fl (percent / 100)) (by exact_mod_cast hprod)
    exact_mod_cast this

/-- C6 (amended): entities are partitioned by top-level key and entity
type, and each partition is sampled independently: for any sampler that
(like `random.sample`) returns `n` elements of its population whenever
`n ≤ |population|`, any percentage ≤ 100 and any partition of
exactly-representable size, the sample drawn for a partition has size
`ceil` of the float evaluation of `|partition| * (percent / 100)` — one
more than the exact ceiling when the double rounds just above an
integer — and consists only of entities of that partition, each carrying
the partition's type and originating from the partition's top-level key;
every entity of the concatenated sample data comes from some single
partition's sample. -/
theorem batch_sampling_per_partition
    (sample : List BatchEntity → Nat → List BatchEntity)
    (percent : ℚ) (data : List (String × List BatchEntity))
    (hsample : ∀ xs n, n ≤ xs.length →
      (sample xs n).length = n ∧ ∀ x ∈ sample xs n, x ∈ xs)
    (hp : percent ≤ 100) :
    (∀ key parts, (key, parts) ∈ partition_batch_data data →
      ∀ t part, (t, part) ∈ parts → part.length ≤ 2 ^ 52 →
        (sample part (sampleSize percent part.length)).length =
          sampleSize percent part.length ∧
        ∀ x ∈ sample part (sampleSize percent part.length),
          x ∈ part ∧ x.etype = t ∧ ∃ orig, (key, orig) ∈ data ∧ x ∈ orig) ∧
    (∀ x ∈ sampleBatchData sample percent data,
      ∃ key parts t part, (key, parts) ∈ partition_batch_data data ∧
        (t, part) ∈ parts ∧ x ∈ sample part (sampleSize percent part.length)) := by
  constructor
  · intro key parts hkp t part htp hrep
    have hsz := sampleSize_le hp hrep
    obtain ⟨hlen, hsub⟩ := hsample part _ hsz
    refine ⟨hlen, ?_⟩
    intro x hxs
    have hxp : x ∈ part := hsub x hxs
    rcases List.mem_map.mp hkp with ⟨kv, hkv, heq⟩
    have hkey : kv.1 = key := congrArg Prod.fst heq
    have hparts : partitionSub kv.2 = parts := congrArg Prod.snd heq
    have hmem : (t, part) ∈ partitionSub kv.2 := by rw [hparts]; exact htp
    have hsound := partitionSub_sound kv.2 (t, part) hmem x hxp
    refine ⟨hxp, hsound.1, kv.2, ?_, hsound.2⟩
    rw [← hkey]
    exact hkv
  · intro x hx
    rcases List.mem_flatMap.mp hx with ⟨kv, hkv, hx2⟩
    rcases List.mem_flatMap.mp hx2 with ⟨sub, hsub, hx3⟩
    exact ⟨kv.1, kv.2, sub.1, sub.2, hkv, hsub, hx3⟩

/-- C6 (witness): a two-entity Address partition sampled at 50% with a
concrete take-based sampler yields a sample of exactly the computed
size. -/
theorem batch_sampling_per_partition_witness :
    (List.take (sampleSize 50 2)
        [BatchEntity.mk (some "Address") 1, BatchEntity.mk (some "Address") 2]).length =
      sampleSize 50 2 := by
  have h := (batch_sampling_per_partition (fun xs n => xs.take n) 50
    [("indicator", [BatchEntity.mk (some "Address") 1, BatchEntity.mk (some "Address") 2])]
    (fun xs n hn =>
      ⟨by rw [List.length_take]; exact min_eq_left hn,
       fun x hx => List.take_subset _ _ hx⟩)
    (by norm_num)).1
  exact (h "indicator"
    [(some "Address",
      [BatchEntity.mk (some "Address") 1, BatchEntity.mk (some "Address") 2])]
    (by decide) (some "Address")
    [BatchEntity.mk (some "Address") 1, BatchEntity.mk (some "Address") 2]
    (by decide) (by norm_num)).1

/-- C8: for the StringArray variable `sa1`, staging `["a","b"]` then
`["c"]` in append mode and flushing stores `["a","b","c"]` (the read
returns the concatenation), while the same two writes in no-append mode
store `["c"]` (the second write replaces the first). -/
theorem add_output_append_semantics :
    read_variable
      (write_output
        (add_output true
          (add_output true [] "sa1" "StringArray" (PBValue.arrVal ["a", "b"]))
          "sa1" "StringArray" (PBValue.arrVal ["c"])) []) "sa1" "StringArray" =
      some (PBValue.arrVal ["a", "b", "c"]) ∧
    read_variable
      (write_output
        (add_output false
          (add_output false [] "sa1" "StringArray" (PBValue.arrVal ["a", "b"]))
          "sa1" "StringArray" (PBValue.arrVal ["c"])) []) "sa1" "StringArray" =
      some (PBValue.arrVal ["c"]) := by
  decide

end TcexValidate
